import Mathlib

/-!
Verification development for the yu-automations repository.

The repository contains two scheduled batch pipelines written in JavaScript:

* `yu-event-alerts.js` — fetches an iCal feed, parses event records, filters
  out past and already-notified events, emails at most ten notifications per
  run, and persists the set of seen event ids in a JSON cache file;
* two near-duplicate gym-shift summarizers (a standalone variant with
  duplicate-row suppression and a GitHub-Actions variant without it) — fetch a
  CSV of shifts, bucket rows into a 14-day pay period anchored at 2025-11-29,
  and sum the hours of the rows inside the active period.

This file shallowly embeds the data model and the operations of those scripts:

* JavaScript `Date` values are modeled by civil day numbers (days since the
  Unix epoch, Hinnant's algorithm) and millisecond timestamps (`Int`).  All
  dates the claims touch lie in ranges with a fixed UTC offset (no DST
  transition), so calendar-day arithmetic (`setDate`) is day-number addition
  and `getTime` differences are exact multiples of a day for midnight dates.
  An invalid `Date` (a NaN timestamp) is `JSDate.invalid`; every relational
  comparison against it is false, as in JavaScript.
* `parseInt` is modeled on its decimal path (leading whitespace, optional
  sign, longest digit prefix; no digits gives NaN, here `none`).  Hexadecimal
  prefixes never occur in the date substrings the scripts feed it.
* `parseFloat(row.Hours) || 0` is modeled by storing the resulting numeric
  value of a shift row as a rational; no claim depends on binary floating
  point rounding.
* The JSON builtins (`JSON.parse` / `JSON.stringify`) are external
  collaborators; the cache file is modeled at the JSON value level: a file
  state is `none` when the file is missing, `some (.error e)` when its text
  does not parse, and `some (.ok j)` when it parses to the JSON value `j`.
* Locale rendering (`toLocaleDateString` / `toLocaleTimeString`) of a valid
  instant is modeled abstractly by the instant itself (`DateDisp.shown t`);
  rendering an invalid `Date` produces the string "Invalid Date", modeled as
  `DateDisp.invalidDate`, and the script's own `'TBD'` sentinel is
  `DateDisp.tbd`.
-/

namespace YuAuto

/-- Days since 1970-01-01 of the civil date y-m-d (Hinnant's algorithm,
month 1..12, arbitrary day with no normalization needed by callers beyond
what they do themselves). -/
def daysFromCivil (y m d : Int) : Int :=
  let y2 := y - (if m ≤ 2 then 1 else 0)
  let era := Int.fdiv y2 400
  let yoe := y2 - era * 400
  let mp := Int.emod (m + 9) 12
  let doy := Int.fdiv (153 * mp + 2) 5 + d - 1
  let doe := yoe * 365 + Int.fdiv yoe 4 - Int.fdiv yoe 100 + doy
  era * 146097 + doe - 719468

/-- Milliseconds in one day, the divisor `1000 * 60 * 60 * 24` of the scripts. -/
def msPerDay : Int := 86400000

/-- Digit run to a natural number, most significant first. -/
def digitsToNat (l : List Char) : Nat :=
  l.foldl (fun acc c => acc * 10 + (c.toNat - '0'.toNat)) 0

/-- JavaScript `parseInt` on its decimal path: skip leading whitespace, an
optional sign, then the longest digit run; no digits means NaN (`none`).
The scripts only feed it substrings of dates, never hexadecimal text. -/
def parseIntJS (s : String) : Option Int :=
  let l := s.toList.dropWhile (fun c => c.isWhitespace)
  let signed : Int × List Char :=
    match l with
    | '-' :: rest => (-1, rest)
    | '+' :: rest => (1, rest)
    | _ => (1, l)
  let digits := signed.2.takeWhile (fun c => c.isDigit)
  if digits.isEmpty then none
  else some (signed.1 * (digitsToNat digits : Int))

/-- JavaScript `str.substring(a, b)` for `a ≤ b`: the characters in
positions `[a, min b len)`. -/
def jsSubstring (s : String) (a b : Nat) : String :=
  (((s.toList).drop a).take (b - a)).asString

/-- Split a character list at every occurrence of a separator character. -/
def splitOnChar (sep : Char) : List Char → List (List Char)
  | [] => [[]]
  | c :: rest =>
    match splitOnChar sep rest with
    | [] => if c == sep then [[], []] else [[c]]
    | cur :: parts => if c == sep then [] :: cur :: parts else (c :: cur) :: parts

/-- JavaScript `str.split(sep)` for a one-character separator. -/
def jsSplit (s : String) (sep : Char) : List String :=
  (splitOnChar sep s.toList).map List.asString

/-- A JavaScript `Date` object: either an Invalid Date (NaN time value) or a
valid instant given by its millisecond timestamp. -/
inductive JSDate where
  | invalid
  | valid (ms : Int)
deriving DecidableEq

/-- `Date.UTC(y, mo, d, h, mi)` with NaN propagation (`none` = NaN): months
are normalized by floor division, years 0..99 are interpreted as 1900+y, and
day/hour/minute values outside their ranges simply shift the instant, exactly
as the ECMAScript `MakeDay`/`MakeTime` normalization does. -/
def dateUTC (y mo d h mi : Option Int) : Option Int :=
  match y, mo, d, h, mi with
  | some y, some mo, some d, some h, some mi =>
    let y2 := if 0 ≤ y ∧ y ≤ 99 then y + 1900 else y
    let ny := y2 + Int.fdiv mo 12
    let nm := Int.emod mo 12
    some (((daysFromCivil ny (nm + 1) 1 + (d - 1)) * 86400 + h * 3600 + mi * 60) * 1000)
  | _, _, _, _, _ => none

/-- `new Date(year, monthIndex, day)` at local midnight, returned as a civil
day number (`none` = Invalid Date from a NaN component).  Same year and month
normalization as `dateUTC`. -/
def jsLocalDate (y mo d : Option Int) : Option Int :=
  match y, mo, d with
  | some y, some mo, some d =>
    let y2 := if 0 ≤ y ∧ y ≤ 99 then y + 1900 else y
    let ny := y2 + Int.fdiv mo 12
    let nm := Int.emod mo 12
    some (daysFromCivil ny (nm + 1) 1 + (d - 1))
  | _, _, _ => none

/-- JavaScript falsiness of an optional string field: an absent field
(`undefined`) and the empty string are falsy. -/
def jsFalsy (o : Option String) : Bool :=
  match o with
  | none => true
  | some s => s == ""

/-- The function `parseICalDate` of yu-event-alerts.js.  `none` is the
`null` return (falsy input); otherwise the fixed-position substrings are
parsed and fed to `Date.UTC`, giving an Invalid Date when any component is
NaN.  The `try`/`catch` of the source is dead code (none of the operations
inside it throws), so it is not modeled. -/
def parseICalDate (str : Option String) : Option JSDate :=
  match str with
  | none => none
  | some s =>
    if s == "" then none
    else
      let y := jsSubstring s 0 4
      let m := jsSubstring s 4 6
      let d := jsSubstring s 6 8
      let h := let t := jsSubstring s 9 11; if t == "" then "00" else t
      let mi := let t := jsSubstring s 11 13; if t == "" then "00" else t
      some (match dateUTC (parseIntJS y) ((parseIntJS m).map (fun v => v - 1))
              (parseIntJS d) (parseIntJS h) (parseIntJS mi) with
            | none => JSDate.invalid
            | some t => JSDate.valid t)

/-- The characters of the literal `ENCODING=QUOT` matched by the regex
`/ENCODING=QUOT[^:]*:/`. -/
def encPat : List Char := "ENCODING=QUOT".toList

/-- Whether the first list is an initial segment of the second. -/
def listStartsWith : List Char → List Char → Bool
  | [], _ => true
  | _ :: _, [] => false
  | p :: ps, c :: cs => (p == c) && listStartsWith ps cs

/-- One left-to-right pass of `.replace(/ENCODING=QUOT[^:]*:/g, '')`.  At a
position where the literal matches and a colon follows, the match extends to
the first colon (the class `[^:]*` cannot cross one) and is removed;
otherwise the character is kept.  Fuel is the remaining scan budget; callers
pass `length + 1`, which is always sufficient since every step consumes at
least one character. -/
def stripEncAux : Nat → List Char → List Char
  | 0, l => l
  | _ + 1, [] => []
  | fuel + 1, c :: rest =>
    if listStartsWith encPat (c :: rest) then
      match ((c :: rest).drop 13).dropWhile (fun ch => !(ch == ':')) with
      | ':' :: tail => stripEncAux fuel tail
      | _ => c :: stripEncAux fuel rest
    else c :: stripEncAux fuel rest

/-- Remove every `ENCODING=QUOT[^:]*:` occurrence from a string. -/
def stripEncoding (s : String) : String :=
  (stripEncAux (s.toList.length + 1) s.toList).asString

/-- The title clean-up chain of yu-event-alerts.js: strip encoding
declarations, un-escape `\,` `\n` `\;`, drop remaining backslashes, trim. -/
def cleanTitle (s : String) : String :=
  (((((stripEncoding s).replace "\\," ",").replace "\\n" " ").replace "\\;" ";").replace "\\" "").trim

/-- The location clean-up of yu-event-alerts.js. -/
def cleanLocation (s : String) : String :=
  ((s.replace "\\," ",").replace "\\" "").trim

/-- A feed record after regex field extraction: each field is the captured
text of its `KEY...:value` line, absent when the line is missing.  The
capture groups `[^\r\n]+` never produce empty strings, but the model allows
them since the script re-checks falsiness. -/
structure RawBlock where
  uid : Option String
  summary : Option String
  dtStart : Option String
  location : Option String
  url : Option String
deriving DecidableEq

/-- Rendered date or time of an event: the `'TBD'` sentinel (start was
`null`), the "Invalid Date" output of locale formatting on an Invalid Date,
or the locale formatting of a valid instant, modeled by the instant. -/
inductive DateDisp where
  | tbd
  | invalidDate
  | shown (ms : Int)
deriving DecidableEq

/-- A parsed event as pushed onto `events` by `fetchEvents`.  The
`timestamp` wall-clock field of the source is omitted: nothing in the
program reads it. -/
structure Event where
  id : String
  title : String
  date : DateDisp
  time : DateDisp
  location : String
  url : String
deriving DecidableEq

/-- Rendering of an optional parsed start (`start ? format(start) : 'TBD'`):
`null` gives TBD, an Invalid Date is truthy and formats as "Invalid Date",
a valid date formats from its instant. -/
def dispOf : Option JSDate → DateDisp
  | none => DateDisp.tbd
  | some JSDate.invalid => DateDisp.invalidDate
  | some (JSDate.valid t) => DateDisp.shown t

/-- The event object built by `fetchEvents` from a record's fields and its
parsed start. -/
def mkEvent (b : RawBlock) (start : Option JSDate) : Event :=
  { id := (b.uid.getD "").trim
    title := cleanTitle (if jsFalsy b.summary then "Untitled Event" else b.summary.getD "")
    date := dispOf start
    time := dispOf start
    location := if jsFalsy b.location then "TBD" else cleanLocation (b.location.getD "")
    url := if jsFalsy b.url then "https://yeshiva.campusgroups.com/events" else (b.url.getD "").trim }

/-- Per-record body of the `fetchEvents` loop: drop the record when uid or
summary is falsy; parse the start; skip the record when the start is a valid
instant strictly before `todayMs` (the local-midnight timestamp computed by
`today.setHours(0,0,0,0)`); otherwise keep the built event.  An Invalid Date
is truthy but compares false against `today`, so it is never skipped. -/
def processBlock (b : RawBlock) (todayMs : Int) : Option Event :=
  if jsFalsy b.uid || jsFalsy b.summary then none
  else
    let start := parseICalDate b.dtStart
    match start with
    | some (JSDate.valid t) => if t < todayMs then none else some (mkEvent b start)
    | _ => some (mkEvent b start)

/-- The record loop of `fetchEvents` over the extracted blocks, preserving
feed order. -/
def fetchEventsFrom (blocks : List RawBlock) (todayMs : Int) : List Event :=
  blocks.filterMap (fun b => processBlock b todayMs)

/-- A JSON value, the result type of `JSON.parse`. -/
inductive Json where
  | null
  | bool (b : Bool)
  | num (n : Int)
  | str (s : String)
  | arr (elems : List Json)
  | obj (fields : List (String × Json))

/-- First binding of a key in a JSON object's field list. -/
def lookupField : List (String × Json) → String → Option Json
  | [], _ => none
  | (k, v) :: rest, key => if k == key then some v else lookupField rest key

/-- The string content of a JSON string value. -/
def asStr : Json → Option String
  | Json.str s => some s
  | _ => none

/-- The empty cache `{ seenIds: [] }` returned by `loadCache` on a missing
or unreadable file. -/
def emptyCacheJson : Json := Json.obj [("seenIds", Json.arr [])]

/-- The cache value `{ seenIds: ids }` that `main` hands to `saveCache`. -/
def mkCacheJson (ids : List String) : Json :=
  Json.obj [("seenIds", Json.arr (ids.map Json.str))]

/-- The function `loadCache`: the file state is `none` when the cache file
is missing (`existsSync` false), `some (.error e)` when reading or
`JSON.parse` throws (caught, empty cache returned), and `some (.ok j)` when
the text parses to the JSON value `j`, which is returned as-is. -/
def loadCache : Option (Except String Json) → Json
  | none => emptyCacheJson
  | some (Except.error _) => emptyCacheJson
  | some (Except.ok j) => j

/-- The function `saveCache`: the file afterwards holds
`JSON.stringify(cache)`, whose text parses back to the same JSON value
(the stringify/parse pair is an external builtin modeled at the value
level), so the new file state is `some (.ok cache)`. -/
def saveCache (cache : Json) : Option (Except String Json) :=
  some (Except.ok cache)

/-- The id strings in a cache value's `seenIds` array, as read by
`new Set(cache.seenIds)`; a missing or non-array field contributes none. -/
def seenIdsOf (j : Json) : List String :=
  match j with
  | Json.obj fields =>
    match lookupField fields "seenIds" with
    | some (Json.arr xs) => xs.filterMap asStr
    | _ => []
  | _ => []

/-- `Set.prototype.add` on a set represented as its insertion-ordered
element list: append unless already present. -/
def addSeen (s : List String) (x : String) : List String :=
  if s.contains x then s else s ++ [x]

/-- `new Set(l)` as an insertion-ordered duplicate-free list. -/
def dedupList (l : List String) : List String :=
  l.foldl addSeen []

/-- `events.filter(e => !seenIds.has(e.id))` of `main`. -/
def newEventsOf (events : List Event) (seen : List String) : List Event :=
  events.filter (fun e => !(seen.contains e.id))

/-- The sequential `sendEmail` loop of `main` over `eventsToNotify`: returns
the events delivered before the first failure, and the first failure's
message if any (an exception aborts the loop). -/
def sendLoop (send : Event → Except String Unit) : List Event → List Event × Option String
  | [] => ([], none)
  | e :: rest =>
    match send e with
    | Except.ok _ =>
      let r := sendLoop send rest
      (e :: r.1, r.2)
    | Except.error msg => ([], some msg)

/-- Observable outcome of one run of `main`: the process exit code, the
`seenIds` array written by `saveCache` (`none` when the run aborted before
the write), and the events the mailer delivered. -/
structure RunResult where
  exitCode : Int
  written : Option (List String)
  delivered : List Event
deriving DecidableEq

/-- The `main` function of yu-event-alerts.js with its I/O collaborators as
parameters: `fetchR` is the outcome of `fetchEvents` (an unhandled fetch
error propagates to the `catch`, which exits with code 1), `send` the
outcome of each `sendEmail`, `cacheSeen` the `seenIds` array loaded from the
cache.  On success all new ids (delivered or not) are added to the seen set
and the cache is written; on any unhandled error the cache file is left
untouched and the process exits non-zero. -/
def runMain (fetchR : Except String (List Event)) (send : Event → Except String Unit)
    (cacheSeen : List String) : RunResult :=
  match fetchR with
  | Except.error _ => ⟨1, none, []⟩
  | Except.ok events =>
    let seen0 := dedupList cacheSeen
    let newEvents := newEventsOf events seen0
    let toNotify := newEvents.take 10
    match sendLoop send toNotify with
    | (d, some _) => ⟨1, none, d⟩
    | (d, none) =>
      let finalSeen := (newEvents.map (fun e => e.id)).foldl addSeen seen0
      ⟨0, some finalSeen, d⟩

/-- Anchor of the pay-period grid: `new Date('2025-11-29T00:00:00')`, local
midnight, as a civil day number. -/
def anchorDay : Int := daysFromCivil 2025 11 29

/-- `PERIOD_LENGTH_DAYS` of both gym-shift scripts. -/
def periodLengthDays : Int := 14

/-- The function `getPayPeriod` of both gym-shift scripts, on a millisecond
timestamp: floor the anchor-relative offset to days, floor again to a period
index, and return the period's first and last civil day.  `setDate` calendar
addition on a midnight date is day-number addition here (fixed UTC offset in
the modeled ranges), and `Math.floor` of the exact float quotients is floor
division. -/
def getPayPeriod (tms : Int) : Int × Int :=
  let timeDiff := tms - anchorDay * msPerDay
  let daysDiff := Int.fdiv timeDiff msPerDay
  let periodIndex := Int.fdiv daysDiff periodLengthDays
  let periodStart := anchorDay + periodIndex * periodLengthDays
  (periodStart, periodStart + periodLengthDays - 1)

/-- A parsed CSV shift row.  `date`, `startTime`, `endTime` are the string
cells `row.Date`, `row['Start Time']`, `row['End Time']`; `hours` is the
numeric value `parseFloat(row.Hours) || 0`, modeled as a rational. -/
structure ShiftRow where
  date : String
  startTime : String
  endTime : String
  hours : ℚ
deriving DecidableEq

/-- The row guards shared by both variants: a row is processed only when its
date cell is non-empty, is not a header echo, and splits into exactly three
slash-separated components. -/
def rowPasses (r : ShiftRow) : Bool :=
  !(r.date == "") && !(r.date == "Date") && !(r.date == "MM/DD/YYYY")
    && ((jsSplit r.date '/').length == 3)

/-- The dedup key `${row.Date}|${row['Start Time']}|${row['End Time']}` of
the standalone variant. -/
def shiftKey (r : ShiftRow) : String :=
  r.date ++ "|" ++ r.startTime ++ "|" ++ r.endTime

/-- `new Date(parseInt(parts[2]), parseInt(parts[0]) - 1, parseInt(parts[1]))`
on the three date components, as a civil day number (`none` = Invalid Date). -/
def parseRowDate (r : ShiftRow) : Option Int :=
  match jsSplit r.date '/' with
  | [ms, ds, ys] =>
    jsLocalDate (parseIntJS ys) ((parseIntJS ms).map (fun v => v - 1)) (parseIntJS ds)
  | _ => none

/-- `rowDate >= periodStart && rowDate <= periodEnd` with JavaScript date
comparison: both bounds are local midnights, an Invalid Date (NaN) compares
false. -/
def inPeriod (period : Int × Int) (d : Option Int) : Bool :=
  match d with
  | some t => decide (period.1 ≤ t) && decide (t ≤ period.2)
  | none => false

/-- A rendered shift line
`` `${row.Date} — ${hours} ${hourText} (${start} - ${end})` ``, kept as its
five interpolated parts (number-to-string rendering is a builtin). -/
structure ShiftLine where
  date : String
  hours : ℚ
  hourWord : String
  startTime : String
  endTime : String
deriving DecidableEq

/-- The display line pushed for an in-period row, with the singular/plural
wording driven by `hours === 1`. -/
def renderLine (r : ShiftRow) : ShiftLine :=
  ⟨r.date, r.hours, if r.hours == 1 then "hour" else "hours", r.startTime, r.endTime⟩

/-- Accumulator of the standalone (deduplicating) row loop. -/
structure ShiftState where
  total : ℚ
  lines : List ShiftLine
  seen : List String
deriving DecidableEq

/-- One iteration of the standalone variant's row loop: guards, then the
duplicate check on the (date, start, end) key, then the key is recorded and
an in-period row contributes its hours and a display line. -/
def shiftStep (period : Int × Int) (s : ShiftState) (r : ShiftRow) : ShiftState :=
  if rowPasses r then
    if s.seen.contains (shiftKey r) then s
    else
      let s2 : ShiftState := ⟨s.total, s.lines, s.seen ++ [shiftKey r]⟩
      if inPeriod period (parseRowDate r) then
        ⟨s2.total + r.hours, s2.lines ++ [renderLine r], s2.seen⟩
      else s2
  else s

/-- The whole row loop of the standalone variant (yu-gym-shifts), before the
final lexicographic sort of the lines. -/
def processShifts (period : Int × Int) (rows : List ShiftRow) : ShiftState :=
  rows.foldl (shiftStep period) ⟨0, [], []⟩

/-- Accumulator of the GitHub-Actions row loop (no duplicate tracking). -/
structure GHState where
  total : ℚ
  lines : List ShiftLine
deriving DecidableEq

/-- One iteration of the GitHub-Actions variant's row loop: guards, then an
in-period row contributes; there is no duplicate check. -/
def ghStep (period : Int × Int) (s : GHState) (r : ShiftRow) : GHState :=
  if rowPasses r then
    if inPeriod period (parseRowDate r) then
      ⟨s.total + r.hours, s.lines ++ [renderLine r]⟩
    else s
  else s

/-- The whole row loop of the GitHub-Actions variant, before the final sort. -/
def processShiftsGH (period : Int × Int) (rows : List ShiftRow) : GHState :=
  rows.foldl (ghStep period) ⟨0, []⟩

/-- Concrete feed block whose uid, summary and start timestamp are present
but whose timestamp text parses to no valid date. -/
def cexBlock : RawBlock :=
  ⟨some "evt-1", some "Party", some "garbage!", none, none⟩

/-- Concrete feed block for a 2020 event, in the past relative to any 2025
midnight. -/
def wPastBlock : RawBlock :=
  ⟨some "u1", some "Past Event", some "20200101T1200", none, none⟩

/-- Concrete parsed event with a given id, used to exercise the seen-set
logic of `runMain`. -/
def wEvent (i : String) : Event :=
  ⟨i, "t", DateDisp.tbd, DateDisp.tbd, "TBD", "u"⟩

/-- Eleven distinct fresh events, one more than the notification cap. -/
def wFeed11 : List Event :=
  ["e1", "e2", "e3", "e4", "e5", "e6", "e7", "e8", "e9", "e10", "e11"].map wEvent

/-- A mailer that always succeeds. -/
def sendOk : Event → Except String Unit := fun _ => Except.ok ()

/-- Concrete shift row inside the pay period of December 2025. -/
def wRow1 : ShiftRow := ⟨"12/01/2025", "10:00 AM", "12:00 PM", 3⟩

/-- Same (date, start, end) triple as `wRow1` but different hours. -/
def wRow2 : ShiftRow := ⟨"12/01/2025", "10:00 AM", "12:00 PM", 7/2⟩

/-- The pay period active on 2025-12-10. -/
def wPeriod : Int × Int := getPayPeriod (daysFromCivil 2025 12 10 * msPerDay)

theorem mem_addSeen {s : List String} {x y : String} :
    y ∈ addSeen s x ↔ y ∈ s ∨ y = x := by
  unfold addSeen
  by_cases h : x ∈ s
  · rw [if_pos (List.elem_iff.mpr h)]
    constructor
    · exact Or.inl
    · rintro (hy | rfl)
      · exact hy
      · exact h
  · rw [if_neg (fun hc => h (List.elem_iff.mp hc))]
    simp [List.mem_append]

theorem mem_foldl_addSeen : ∀ (l : List String) (s : List String) (x : String),
    x ∈ s ∨ x ∈ l → x ∈ l.foldl addSeen s := by
  intro l
  induction l with
  | nil =>
    intro s x h
    rcases h with h | h
    · exact h
    · cases h
  | cons a t ih =>
    intro s x h
    simp only [List.foldl_cons]
    apply ih
    rcases h with h | h
    · exact Or.inl (mem_addSeen.mpr (Or.inl h))
    · rcases List.mem_cons.mp h with rfl | ht
      · exact Or.inl (mem_addSeen.mpr (Or.inr rfl))
      · exact Or.inr ht

theorem mem_dedupList_of_mem {l : List String} {x : String} (h : x ∈ l) :
    x ∈ dedupList l :=
  mem_foldl_addSeen l [] x (Or.inr h)

theorem sendLoop_ok (send : Event → Except String Unit)
    (hs : ∀ e, send e = Except.ok ()) : ∀ l, sendLoop send l = (l, none) := by
  intro l
  induction l with
  | nil => rfl
  | cons e t ih => simp [sendLoop, hs e, ih]

/-- C2: with anchor 2025-11-29 and length 14, `getPayPeriod` maps 2025-12-10
to the period 2025-11-29 .. 2025-12-12 and maps 2025-12-13 to the period
2025-12-13 .. 2025-12-26. -/
theorem pay_period_examples :
    getPayPeriod (daysFromCivil 2025 12 10 * msPerDay)
        = (daysFromCivil 2025 11 29, daysFromCivil 2025 12 12)
      ∧ getPayPeriod (daysFromCivil 2025 12 13 * msPerDay)
        = (daysFromCivil 2025 12 13, daysFromCivil 2025 12 26) := by
  decide

/-- C4: a record whose start timestamp parses to a valid instant strictly
before today's local midnight is dropped by the parser loop — `processBlock`
returns `none` and the record contributes nothing to the `fetchEvents`
output, wherever it sits in the feed.  The parser never consults the
seen-set (it is not even an input of `processBlock`), so the exclusion is
independent of the persisted state. -/
theorem past_event_excluded (b : RawBlock) (todayMs t : Int)
    (hp : parseICalDate b.dtStart = some (JSDate.valid t)) (hlt : t < todayMs) :
    processBlock b todayMs = none
      ∧ ∀ (xs ys : List RawBlock),
          fetchEventsFrom (xs ++ b :: ys) todayMs = fetchEventsFrom (xs ++ ys) todayMs := by
  have hnone : processBlock b todayMs = none := by
    by_cases hf : (jsFalsy b.uid || jsFalsy b.summary) = true
    · simp [processBlock, hf]
    · simp [processBlock, hf, hp, hlt]
  refine ⟨hnone, fun xs ys => ?_⟩
  unfold fetchEventsFrom
  simp [List.filterMap_append, List.filterMap_cons, hnone]

/-- C4 witness: the concrete 2020 event is excluded when today is a 2025
midnight. -/
theorem past_event_excluded_witness :
    processBlock wPastBlock 1760000000000 = none
      ∧ fetchEventsFrom [wPastBlock] 1760000000000 = fetchEventsFrom [] 1760000000000 :=
  ⟨(past_event_excluded wPastBlock 1760000000000 1577880000000 (by decide) (by decide)).1,
   (past_event_excluded wPastBlock 1760000000000 1577880000000 (by decide) (by decide)).2 [] []⟩

/-- C5 counterexample: for a record whose uid and title are present and
whose start timestamp text is present but unparsable, the built event's
formatted date and time are the "Invalid Date" rendering, not the `'TBD'`
sentinel — `'TBD'` requires a `null` start, but an unparsable timestamp
yields a truthy Invalid Date, so the `start ? ... : 'TBD'` selects locale
formatting. -/
theorem unparsable_start_not_tbd_cex :
    (processBlock cexBlock 0).map Event.date = some DateDisp.invalidDate
      ∧ (processBlock cexBlock 0).map Event.time = some DateDisp.invalidDate
      ∧ DateDisp.invalidDate ≠ DateDisp.tbd := by
  decide

/-- C5 as amended: a record with uid and title present whose start
timestamp is present but fails to parse is kept in the parser output and is
never excluded by the past-event filter, but its formatted date and time
render as "Invalid Date", not `'TBD'`; the `'TBD'` sentinel appears exactly
when the timestamp parses to `null`, i.e. when the field is absent or
empty. -/
theorem unparsable_start_rendered_invalid (b : RawBlock) (todayMs : Int)
    (hu : jsFalsy b.uid = false) (hsm : jsFalsy b.summary = false) :
    (parseICalDate b.dtStart = some JSDate.invalid →
        processBlock b todayMs = some (mkEvent b (some JSDate.invalid))
          ∧ (mkEvent b (some JSDate.invalid)).date = DateDisp.invalidDate
          ∧ (mkEvent b (some JSDate.invalid)).time = DateDisp.invalidDate)
      ∧ (parseICalDate b.dtStart = none →
        processBlock b todayMs = some (mkEvent b none)
          ∧ (mkEvent b none).date = DateDisp.tbd
          ∧ (mkEvent b none).time = DateDisp.tbd) := by
  constructor
  · intro hinv
    refine ⟨?_, rfl, rfl⟩
    simp [processBlock, hu, hsm, hinv]
  · intro hn
    refine ⟨?_, rfl, rfl⟩
    simp [processBlock, hu, hsm, hn]

/-- C5 witness: the concrete unparsable-timestamp block is kept and rendered
as "Invalid Date". -/
theorem unparsable_start_rendered_invalid_witness :
    jsFalsy cexBlock.uid = false
      ∧ parseICalDate cexBlock.dtStart = some JSDate.invalid
      ∧ (processBlock cexBlock 5 = some (mkEvent cexBlock (some JSDate.invalid))
          ∧ (mkEvent cexBlock (some JSDate.invalid)).date = DateDisp.invalidDate
          ∧ (mkEvent cexBlock (some JSDate.invalid)).time = DateDisp.invalidDate) :=
  ⟨by decide, by decide,
   (unparsable_start_rendered_invalid cexBlock 5 (by decide) (by decide)).1 (by decide)⟩

/-- C8: `loadCache` returns the empty state `{ seenIds: [] }` both when the
cache file is missing and when reading or parsing it fails, so a run
continues as a first run instead of aborting. -/
theorem load_cache_missing_or_corrupt_empty :
    loadCache none = emptyCacheJson ∧ seenIdsOf (loadCache none) = []
      ∧ ∀ (err : String),
          loadCache (some (Except.error err)) = emptyCacheJson
            ∧ seenIdsOf (loadCache (some (Except.error err))) = [] :=
  ⟨rfl, rfl, fun _ => ⟨rfl, rfl⟩⟩

/-- C9: saving the seen-set and loading it back yields the same set of ids —
for every id array, membership in the reloaded `seenIds` coincides with
membership in the saved one. -/
theorem seen_set_roundtrip :
    ∀ (ids : List String) (x : String),
      x ∈ seenIdsOf (loadCache (saveCache (mkCacheJson ids))) ↔ x ∈ ids := by
  have key : ∀ ids : List String, (ids.map Json.str).filterMap asStr = ids := by
    intro ids
    induction ids with
    | nil => rfl
    | cons a t ih => simp [asStr, ih]
  intro ids x
  show x ∈ seenIdsOf (mkCacheJson ids) ↔ x ∈ ids
  unfold seenIdsOf mkCacheJson
  simp [lookupField, key ids]

/-- C1: when the list of new events has more than ten elements and the
mailer succeeds, exactly the first ten events of `new` in feed order are
delivered, and every new event's id — delivered or not — is in the seen-set
written at the end of the run. -/
theorem notification_cap_first_ten (events : List Event)
    (send : Event → Except String Unit) (cacheSeen : List String)
    (hsend : ∀ e, send e = Except.ok ())
    (hk : 10 < (newEventsOf events (dedupList cacheSeen)).length) :
    (runMain (Except.ok events) send cacheSeen).delivered
        = (newEventsOf events (dedupList cacheSeen)).take 10
      ∧ (runMain (Except.ok events) send cacheSeen).delivered.length = 10
      ∧ ∃ w, (runMain (Except.ok events) send cacheSeen).written = some w
          ∧ ∀ e ∈ newEventsOf events (dedupList cacheSeen), e.id ∈ w := by
  have hloop := sendLoop_ok send hsend ((newEventsOf events (dedupList cacheSeen)).take 10)
  have hrun : runMain (Except.ok events) send cacheSeen
      = ⟨0, some (((newEventsOf events (dedupList cacheSeen)).map (fun e => e.id)).foldl
              addSeen (dedupList cacheSeen)),
          (newEventsOf events (dedupList cacheSeen)).take 10⟩ := by
    simp only [runMain, hloop]
  rw [hrun]
  refine ⟨rfl, ?_, ?_⟩
  · rw [List.length_take]
    exact Nat.min_eq_left (Nat.le_of_lt hk)
  · exact ⟨_, rfl, fun e he =>
      mem_foldl_addSeen _ _ _ (Or.inr (List.mem_map_of_mem _ he))⟩

/-- C1 witness: with eleven fresh events and a succeeding mailer, exactly
the first ten are delivered. -/
theorem notification_cap_first_ten_witness :
    (runMain (Except.ok wFeed11) sendOk []).delivered
        = (newEventsOf wFeed11 (dedupList [])).take 10
      ∧ (runMain (Except.ok wFeed11) sendOk []).delivered.length = 10 :=
  ⟨(notification_cap_first_ten wFeed11 sendOk [] (fun _ => rfl) (by decide)).1,
   (notification_cap_first_ten wFeed11 sendOk [] (fun _ => rfl) (by decide)).2.1⟩

/-- C6: on a successful run, every id in the loaded seen-set is in the
written seen-set (ids are only added, never removed), and any event whose id
is in the written set is excluded from the `new` list of a later run that
loads it. -/
theorem seen_set_monotone (events : List Event) (send : Event → Except String Unit)
    (cacheSeen w : List String)
    (hw : (runMain (Except.ok events) send cacheSeen).written = some w) :
    (∀ x ∈ cacheSeen, x ∈ w)
      ∧ ∀ (laterFeed : List Event) (e : Event), e.id ∈ w →
          e ∉ newEventsOf laterFeed (dedupList w) := by
  have hshape : w = ((newEventsOf events (dedupList cacheSeen)).map (fun e => e.id)).foldl
      addSeen (dedupList cacheSeen) := by
    rcases hsl : sendLoop send ((newEventsOf events (dedupList cacheSeen)).take 10)
      with ⟨d, err⟩
    simp only [runMain, hsl] at hw
    cases err with
    | some msg => simp at hw
    | none =>
      simp only [Option.some.injEq] at hw
      exact hw.symm
  constructor
  · intro x hx
    rw [hshape]
    exact mem_foldl_addSeen _ _ _ (Or.inl (mem_dedupList_of_mem hx))
  · intro laterFeed e hid hmem
    have hcond := (List.mem_filter.mp hmem).2
    rw [Bool.not_eq_true', ← Bool.not_eq_true] at hcond
    exact hcond (List.elem_iff.mpr (mem_dedupList_of_mem hid))

/-- C6 witness: a run over the cache `["z"]` writes a set containing `"z"`. -/
theorem seen_set_monotone_witness :
    (runMain (Except.ok [wEvent "a"]) sendOk ["z"]).written = some ["z", "a"]
      ∧ ("z" : String) ∈ ["z", "a"] :=
  ⟨by decide,
   (seen_set_monotone [wEvent "a"] sendOk ["z"] ["z", "a"] (by decide)).1 "z" (by decide)⟩

/-- C7: when the fetch fails, or any delivery in the per-run send loop
fails, the run exits with code 1 and the cache file is not written; the
cache is written only on runs that exit with code 0. -/
theorem failure_preserves_state (fetchR : Except String (List Event))
    (send : Event → Except String Unit) (cacheSeen : List String) :
    ((∃ msg, fetchR = Except.error msg) ∨
        (∃ events, fetchR = Except.ok events ∧
          ((sendLoop send ((newEventsOf events (dedupList cacheSeen)).take 10)).2.isSome
            = true)) →
      (runMain fetchR send cacheSeen).exitCode = 1
        ∧ (runMain fetchR send cacheSeen).written = none)
    ∧ ∀ w, (runMain fetchR send cacheSeen).written = some w →
        (runMain fetchR send cacheSeen).exitCode = 0 := by
  constructor
  · rintro (⟨msg, rfl⟩ | ⟨events, rfl, hfail⟩)
    · exact ⟨rfl, rfl⟩
    · rcases hsl : sendLoop send ((newEventsOf events (dedupList cacheSeen)).take 10)
        with ⟨d, err⟩
      simp only [runMain, hsl]
      cases err with
      | some m => exact ⟨rfl, rfl⟩
      | none => rw [hsl] at hfail; simp at hfail
  · intro w hw
    cases fetchR with
    | error m => simp [runMain] at hw
    | ok events =>
      rcases hsl : sendLoop send ((newEventsOf events (dedupList cacheSeen)).take 10)
        with ⟨d, err⟩
      simp only [runMain, hsl] at hw ⊢
      cases err with
      | some m => simp at hw
      | none => rfl

/-- C7 witness: a failed fetch exits 1 and leaves the cache unwritten. -/
theorem failure_preserves_state_witness :
    (runMain (Except.error "network error") sendOk []).exitCode = 1
      ∧ (runMain (Except.error "network error") sendOk []).written = none :=
  (failure_preserves_state (Except.error "network error") sendOk []).1
    (Or.inl ⟨"network error", rfl⟩)

theorem shiftStep_seen_mono (period : Int × Int) (s : ShiftState) (r : ShiftRow)
    (x : String) (h : x ∈ s.seen) : x ∈ (shiftStep period s r).seen := by
  unfold shiftStep
  split
  · split
    · exact h
    · split
      · exact List.mem_append_left _ h
      · exact List.mem_append_left _ h
  · exact h

theorem foldl_shiftStep_seen_mono (period : Int × Int) :
    ∀ (l : List ShiftRow) (s : ShiftState) (x : String),
      x ∈ s.seen → x ∈ (l.foldl (shiftStep period) s).seen := by
  intro l
  induction l with
  | nil => intro s x h; exact h
  | cons r t ih =>
    intro s x h
    simp only [List.foldl_cons]
    exact ih _ x (shiftStep_seen_mono period s r x h)

theorem shiftStep_adds_key (period : Int × Int) (s : ShiftState) (r : ShiftRow)
    (hr : rowPasses r = true) : shiftKey r ∈ (shiftStep period s r).seen := by
  unfold shiftStep
  rw [if_pos hr]
  split
  · exact List.elem_iff.mp (by assumption)
  · split
    · exact List.mem_append_right _ (List.mem_singleton.mpr rfl)
    · exact List.mem_append_right _ (List.mem_singleton.mpr rfl)

theorem shiftStep_skip (period : Int × Int) (s : ShiftState) (r : ShiftRow)
    (hr : rowPasses r = true) (hin : shiftKey r ∈ s.seen) :
    shiftStep period s r = s := by
  unfold shiftStep
  rw [if_pos hr, if_pos (List.elem_iff.mpr hin)]

/-- C3: in the deduplicating shift loop, a second row carrying the same
(date, start, end) key as an earlier processed row is skipped: deleting it
from the input changes nothing, and on the two-row input the total is the
first row's hours and the only display line is the first row's — the second
row's (possibly different) hours never contribute. -/
theorem shift_dedup_first_contributes (period : Int × Int) (xs ys zs : List ShiftRow)
    (r1 r2 : ShiftRow) (h1 : rowPasses r1 = true) (h2 : rowPasses r2 = true)
    (hk : shiftKey r1 = shiftKey r2) :
    processShifts period (xs ++ r1 :: (ys ++ r2 :: zs))
        = processShifts period (xs ++ r1 :: (ys ++ zs))
      ∧ (inPeriod period (parseRowDate r1) = true →
          processShifts period [r1, r2] = ⟨r1.hours, [renderLine r1], [shiftKey r1]⟩) := by
  constructor
  · unfold processShifts
    simp only [List.foldl_append, List.foldl_cons]
    rw [shiftStep_skip period _ r2 h2
      (hk ▸ foldl_shiftStep_seen_mono period ys _ _ (shiftStep_adds_key period _ r1 h1))]
  · intro hp
    show shiftStep period (shiftStep period ⟨0, [], []⟩ r1) r2 = _
    have step1 : shiftStep period ⟨0, [], []⟩ r1
        = ⟨r1.hours, [renderLine r1], [shiftKey r1]⟩ := by
      unfold shiftStep
      rw [if_pos h1, if_neg (by simp), if_pos hp]
      simp
    rw [step1]
    exact shiftStep_skip period _ r2 h2 (by rw [← hk]; exact List.mem_singleton.mpr rfl)

/-- C3 witness: two concrete rows with the same key and hours 3 and 3.5 —
the total is 3 and only the first row's line is produced. -/
theorem shift_dedup_first_contributes_witness :
    rowPasses wRow1 = true
      ∧ inPeriod wPeriod (parseRowDate wRow1) = true
      ∧ processShifts wPeriod [wRow1, wRow2]
          = ⟨3, [renderLine wRow1], [shiftKey wRow1]⟩ :=
  ⟨by decide, by decide,
   (shift_dedup_first_contributes wPeriod [] [] [] wRow1 wRow2 (by decide) (by decide)
      rfl).2 (by decide)⟩

theorem ghStep_decomp (period : Int × Int) (r : ShiftRow) (s : GHState) :
    ghStep period s r
      = ⟨s.total + (ghStep period ⟨0, []⟩ r).total,
         s.lines ++ (ghStep period ⟨0, []⟩ r).lines⟩ := by
  unfold ghStep
  split
  · split
    · simp
    · cases s; simp
  · cases s; simp

theorem ghFoldl_decomp (period : Int × Int) :
    ∀ (l : List ShiftRow) (s : GHState),
      List.foldl (ghStep period) s l
        = ⟨s.total + (processShiftsGH period l).total,
           s.lines ++ (processShiftsGH period l).lines⟩ := by
  intro l
  induction l with
  | nil => intro s; cases s; simp [processShiftsGH]
  | cons r t ih =>
    intro s
    have hcons : processShiftsGH period (r :: t)
        = List.foldl (ghStep period) (ghStep period ⟨0, []⟩ r) t := rfl
    simp only [List.foldl_cons, hcons, ih]
    rw [ghStep_decomp]
    simp [GHState.mk.injEq, add_assoc, List.append_assoc]

theorem ghFoldl_total (period : Int × Int) (l : List ShiftRow) (s : GHState) :
    (List.foldl (ghStep period) s l).total = s.total + (processShiftsGH period l).total := by
  rw [ghFoldl_decomp]

theorem ghFoldl_lines (period : Int × Int) (l : List ShiftRow) (s : GHState) :
    (List.foldl (ghStep period) s l).lines = s.lines ++ (processShiftsGH period l).lines := by
  rw [ghFoldl_decomp]

/-- C10: the GitHub-Actions variant performs no deduplication — when two
rows with identical date, start and end (and that date inside the active
period) both occur in the input, both rows' hours are added to the total and
both produce display lines. -/
theorem gh_variant_no_dedup (period : Int × Int) (xs ys zs : List ShiftRow)
    (r1 r2 : ShiftRow) (hd : r2.date = r1.date) (hst : r2.startTime = r1.startTime)
    (hen : r2.endTime = r1.endTime) (h1 : rowPasses r1 = true)
    (hp : inPeriod period (parseRowDate r1) = true) :
    (processShiftsGH period (xs ++ r1 :: (ys ++ r2 :: zs))).total
        = (processShiftsGH period (xs ++ (ys ++ zs))).total + r1.hours + r2.hours
      ∧ (processShiftsGH period (xs ++ r1 :: (ys ++ r2 :: zs))).lines
        = (processShiftsGH period xs).lines ++ renderLine r1 ::
            ((processShiftsGH period ys).lines ++ renderLine r2 ::
              (processShiftsGH period zs).lines) := by
  have h2 : rowPasses r2 = true := by
    unfold rowPasses at h1 ⊢
    rw [hd]
    exact h1
  have hdate : parseRowDate r2 = parseRowDate r1 := by
    unfold parseRowDate
    rw [hd]
  have hp2 : inPeriod period (parseRowDate r2) = true := by rw [hdate]; exact hp
  have hstep1 : ∀ s : GHState, ghStep period s r1
      = ⟨s.total + r1.hours, s.lines ++ [renderLine r1]⟩ := by
    intro s
    unfold ghStep
    rw [if_pos h1, if_pos hp]
  have hstep2 : ∀ s : GHState, ghStep period s r2
      = ⟨s.total + r2.hours, s.lines ++ [renderLine r2]⟩ := by
    intro s
    unfold ghStep
    rw [if_pos h2, if_pos hp2]
  have hl1 : (processShiftsGH period (xs ++ r1 :: (ys ++ r2 :: zs))).total
      = (processShiftsGH period xs).total + r1.hours + (processShiftsGH period ys).total
          + r2.hours + (processShiftsGH period zs).total := by
    show (List.foldl (ghStep period) ⟨0, []⟩ (xs ++ r1 :: (ys ++ r2 :: zs))).total = _
    simp only [List.foldl_append, List.foldl_cons, hstep1, hstep2, ghFoldl_total, zero_add]
  have hr1 : (processShiftsGH period (xs ++ (ys ++ zs))).total
      = (processShiftsGH period xs).total + (processShiftsGH period ys).total
          + (processShiftsGH period zs).total := by
    show (List.foldl (ghStep period) ⟨0, []⟩ (xs ++ (ys ++ zs))).total = _
    simp only [List.foldl_append, ghFoldl_total, zero_add]
  have hl2 : (processShiftsGH period (xs ++ r1 :: (ys ++ r2 :: zs))).lines
      = (processShiftsGH period xs).lines ++ renderLine r1 ::
          ((processShiftsGH period ys).lines ++ renderLine r2 ::
            (processShiftsGH period zs).lines) := by
    show (List.foldl (ghStep period) ⟨0, []⟩ (xs ++ r1 :: (ys ++ r2 :: zs))).lines = _
    simp only [List.foldl_append, List.foldl_cons, hstep1, hstep2, ghFoldl_lines,
      List.nil_append, List.append_assoc, List.singleton_append, List.cons_append]
  constructor
  · rw [hl1, hr1]
    ring
  · exact hl2

/-- C10 witness: the same duplicate pair as the C3 witness, fed to the
GitHub-Actions loop — both rows count, total 6.5 and two lines. -/
theorem gh_variant_no_dedup_witness :
    (processShiftsGH wPeriod [wRow1, wRow2]).total
        = (processShiftsGH wPeriod []).total + wRow1.hours + wRow2.hours
      ∧ (processShiftsGH wPeriod [wRow1, wRow2]).lines
        = (processShiftsGH wPeriod []).lines ++ renderLine wRow1 ::
            ((processShiftsGH wPeriod []).lines ++ renderLine wRow2 ::
              (processShiftsGH wPeriod []).lines) :=
  gh_variant_no_dedup wPeriod [] [] [] wRow1 wRow2 rfl rfl rfl (by decide) (by decide)

end YuAuto
